import Mathlib

/-!
# MerkleSeal-VeriChain: verification of the batch-credential core

A shallow embedding of the repository's core: the Merkle engine
(sorted-pair tree construction, proof generation, proof verification),
the `VCRegistry` batch-credential state machine, and the `DIDRegistry`
identity state machine, together with theorems settling the spec claims.

32-byte hash values and addresses are modelled as `Nat`; the 256-bit
hash primitive (keccak256) is an external collaborator and appears as an
abstract function parameter `H`.
-/

namespace VeriChain

/-- A 32-byte value (leaf, root, proof element, identifier). -/
abbrev Hash := Nat

/-- An account address; `0` plays the role of `address(0)`. -/
abbrev Address := Nat

/-! ## MerkleEngine

Modelled from the spec: the Merkle-tree build / proof-generation /
proof-verification algorithms live in the external libraries
`merkletreejs` (used with `sortPairs: true` by `handleIssueBatch` and the
test suite) and OpenZeppelin `MerkleProof` (called by
`VCRegistry.verifyCredential`); their sources are not part of this
repository. Each definition below is written from the spec's
description: sorted-pair hashing `hash(min(a,b) || max(a,b))` at every
interior node, one fixed rule for odd-length levels (an unpaired last
node is carried to the next level), proofs as ordered sibling sequences,
and verification as a fold of the sorted-pair rule compared to the root.
-/

/-- Modelled from the spec: the sorted-pair combine rule
`hash(min(a,b) || max(a,b))`; `H a b` stands for the external 256-bit
hash of the concatenation `a || b`. -/
def hashPair (H : Hash → Hash → Hash) (a b : Hash) : Hash :=
  if a < b then H a b else H b a

/-- Modelled from the spec: one level-up step of tree construction;
adjacent nodes are combined with the sorted-pair rule and an unpaired
last node of an odd-length level is carried up unchanged. -/
def nextLevel (H : Hash → Hash → Hash) : List Hash → List Hash
  | a :: b :: rest => hashPair H a b :: nextLevel H rest
  | [a] => [a]
  | [] => []

theorem nextLevel_length (H : Hash → Hash → Hash) :
    ∀ l : List Hash, (nextLevel H l).length = (l.length + 1) / 2
  | [] => rfl
  | [_] => by simp [nextLevel]
  | _ :: _ :: rest => by
    simp only [nextLevel, List.length_cons, nextLevel_length H rest]
    omega

/-- Modelled from the spec: `rootOf(buildTree(leaves))` — repeatedly
collapse levels until a single node remains; that node is the root. -/
def rootOfLeaves (H : Hash → Hash → Hash) (nodes : List Hash) : Hash :=
  if _h : nodes.length ≤ 1 then nodes.getD 0 0
  else rootOfLeaves H (nextLevel H nodes)
termination_by nodes.length
decreasing_by
  rw [nextLevel_length]
  omega

/-- Modelled from the spec: the sibling of the node at index `i` of a
level — `i - 1` for a right node, `i + 1` for a left node. -/
def sibIdx (i : Nat) : Nat :=
  if i % 2 = 1 then i - 1 else i + 1

/-- Modelled from the spec: the inclusion proof for the node at index
`i`, collected level by level: at each level push the sibling when it
exists (the unpaired last node of an odd level has none), then ascend
to index `i / 2`. -/
def proofAtIndex (H : Hash → Hash → Hash) (nodes : List Hash) (i : Nat) : List Hash :=
  if _h : nodes.length ≤ 1 then []
  else
    (if sibIdx i < nodes.length then [nodes.getD (sibIdx i) 0] else [])
    ++ proofAtIndex H (nextLevel H nodes) (i / 2)
termination_by nodes.length
decreasing_by
  rw [nextLevel_length]
  omega

/-- Modelled from the spec: locate a leaf in the leaf sequence by value
(the last occurrence, matching the library's scan). -/
def lastIdxOf (x : Hash) : List Hash → Option Nat
  | [] => none
  | a :: rest =>
    match lastIdxOf x rest with
    | some j => some (j + 1)
    | none => if a = x then some 0 else none

/-- Modelled from the spec: `proofFor(tree, leaf)` fails with `NotFound`
when the leaf is absent from the leaf set (compared by value) or when
the leaf value occurs more than once; otherwise it returns the sibling
path of the unique occurrence. -/
def proofFor (H : Hash → Hash → Hash) (leaves : List Hash) (leaf : Hash) :
    Except Unit (List Hash) :=
  if leaves.count leaf ≠ 1 then .error ()
  else
    match lastIdxOf leaf leaves with
    | some i => .ok (proofAtIndex H leaves i)
    | none => .error ()

/-- Modelled from the spec: the proof actually generated by the
frontend / test code (`tree.getHexProof(leaf)`): look the leaf up by
value and emit the sibling path; an absent leaf yields an empty path. -/
def getProofFor (H : Hash → Hash → Hash) (leaves : List Hash) (leaf : Hash) : List Hash :=
  match lastIdxOf leaf leaves with
  | some i => proofAtIndex H leaves i
  | none => []

/-- Modelled from the spec: recompute the path — fold the sorted-pair
rule over the proof elements starting from the leaf. -/
def processProof (H : Hash → Hash → Hash) (proof : List Hash) (leaf : Hash) : Hash :=
  proof.foldl (hashPair H) leaf

/-- Modelled from the spec: `verifyProof(leaf, root, proof)` — recompute
the path and compare the final value to the root; pure and total. -/
def verifyProof (H : Hash → Hash → Hash) (proof : List Hash) (root leaf : Hash) : Bool :=
  processProof H proof leaf == root

/-! ## BatchLedger (`VCRegistry`, contracts/VCRegistry.sol)

State: `merkleRootToIssuer : mapping(bytes32 => address)` (the Solidity
mapping default `address(0)` means "no issuer") and
`isBatchCredentialRevoked : mapping(bytes32 => bool)`. Reverts are
modelled with `Except`: an `.error` leaves the caller's state unused.
The `ISSUER_ROLE` check of `onlyRole` lives in the external
`AccessControl` collaborator and is passed in as a predicate.
-/

structure VCState where
  merkleRootToIssuer : Hash → Address
  isBatchCredentialRevoked : Hash → Bool

inductive VCErr where
  | MissingIssuerRole
  | DuplicateRoot
  | UnknownRoot
  | NotAuthorized
  | AlreadyRevoked
deriving DecidableEq

inductive VCEvent where
  | BatchCredentialsIssued (merkleRoot : Hash) (issuer : Address)
  | BatchCredentialRevoked (leaf merkleRoot : Hash) (revoker : Address)
deriving DecidableEq

/-- `VCRegistry.issueBatchCredentials`: requires the `ISSUER_ROLE`
(external `onlyRole` modifier), rejects an already-mapped root, records
`root -> msg.sender` and emits `BatchCredentialsIssued`. -/
def issueBatchCredentials (isIssuer : Address → Bool) (s : VCState)
    (sender : Address) (merkleRoot : Hash) : Except VCErr (VCState × VCEvent) :=
  if isIssuer sender = false then .error .MissingIssuerRole
  else if s.merkleRootToIssuer merkleRoot ≠ 0 then .error .DuplicateRoot
  else .ok
    ({ s with merkleRootToIssuer :=
        fun r => if r = merkleRoot then sender else s.merkleRootToIssuer r },
     .BatchCredentialsIssued merkleRoot sender)

/-- `VCRegistry.revokeBatchCredential`: requires a recorded issuer for
the root, that the caller is that issuer, and that the leaf is not yet
revoked; then marks the leaf revoked and emits
`BatchCredentialRevoked`. -/
def revokeBatchCredential (s : VCState) (sender : Address) (leaf merkleRoot : Hash) :
    Except VCErr (VCState × VCEvent) :=
  let issuer := s.merkleRootToIssuer merkleRoot
  if issuer = 0 then .error .UnknownRoot
  else if sender ≠ issuer then .error .NotAuthorized
  else if s.isBatchCredentialRevoked leaf then .error .AlreadyRevoked
  else .ok
    ({ s with isBatchCredentialRevoked :=
        fun l => if l = leaf then true else s.isBatchCredentialRevoked l },
     .BatchCredentialRevoked leaf merkleRoot sender)

/-- `VCRegistry.verifyCredential`: a view function — revoked leaf first,
then unknown root, then the Merkle-proof check; `(false, address(0))` on
every failure, `(true, issuer)` on success. -/
def verifyCredential (H : Hash → Hash → Hash) (s : VCState)
    (leaf merkleRoot : Hash) (proof : List Hash) : Bool × Address :=
  if s.isBatchCredentialRevoked leaf then (false, 0)
  else
    let issuer := s.merkleRootToIssuer merkleRoot
    if issuer = 0 then (false, 0)
    else if verifyProof H proof merkleRoot leaf then (true, issuer)
    else (false, 0)

/-- One externally submitted transaction against `VCRegistry`; the
role predicate travels with the transaction because role membership is
managed by the external `AccessControl` collaborator and may change
between transactions. -/
inductive VCOp where
  | issue (isIssuer : Address → Bool) (sender : Address) (merkleRoot : Hash)
  | revoke (sender : Address) (leaf merkleRoot : Hash)

/-- Apply one transaction; a reverted (erroring) transaction leaves the
state unchanged. -/
def stepVC (s : VCState) : VCOp → VCState
  | .issue isIssuer sender merkleRoot =>
    match issueBatchCredentials isIssuer s sender merkleRoot with
    | .ok (s', _) => s'
    | .error _ => s
  | .revoke sender leaf merkleRoot =>
    match revokeBatchCredential s sender leaf merkleRoot with
    | .ok (s', _) => s'
    | .error _ => s

/-- Run a globally ordered sequence of transactions. -/
def runVC (s : VCState) (ops : List VCOp) : VCState :=
  ops.foldl stepVC s

/-! ## IdentityLedger (`DIDRegistry`, contracts/DIDRegistry.sol)

State: `dids : mapping(bytes32 => DIDDocument)` (mapping default:
controller `address(0)`, empty cid, status `Active` — a zero controller
means "no record"), `nonces : mapping(address => uint256)` and the
reverse index `ownerToDIDs : mapping(address => bytes32[])`. The DID is
`keccak256(abi.encodePacked(msg.sender, nonce))`, modelled by the
abstract external hash `Hkey`. -/

inductive DIDStatus where
  | Active
  | Revoked
deriving DecidableEq

structure DIDDocument where
  controller : Address
  cid : String
  status : DIDStatus
deriving DecidableEq

/-- The Solidity mapping default value for `DIDDocument`. -/
def emptyDoc : DIDDocument := ⟨0, "", .Active⟩

structure DIDState where
  dids : Hash → DIDDocument
  nonces : Address → Nat
  ownerToDIDs : Address → List Hash

/-- Freshly deployed registry: all mappings at their defaults. -/
def DIDState.init : DIDState :=
  ⟨fun _ => emptyDoc, fun _ => 0, fun _ => []⟩

inductive DIDErr where
  | CollisionDetected
  | NotFound
  | NotController
  | AlreadyRevoked
deriving DecidableEq

/-- `DIDRegistry.createDID`: derives the DID from the caller and the
caller's current nonce, rejects an existing DID, stores the new
document, bumps the nonce and appends to the reverse index. Returns the
new DID (the value emitted in `DIDRegistered`). -/
def createDID (Hkey : Address → Nat → Hash) (s : DIDState)
    (sender : Address) (cid : String) : Except DIDErr (DIDState × Hash) :=
  let userNonce := s.nonces sender
  let did := Hkey sender userNonce
  if (s.dids did).controller ≠ 0 then .error .CollisionDetected
  else .ok
    ({ dids := fun d => if d = did then ⟨sender, cid, .Active⟩ else s.dids d,
       nonces := fun a => if a = sender then s.nonces a + 1 else s.nonces a,
       ownerToDIDs := fun a =>
         if a = sender then s.ownerToDIDs a ++ [did] else s.ownerToDIDs a },
     did)

/-- `DIDRegistry.updateDID`: existence, controller and active-status
checks in that order, then replaces the cid. -/
def updateDID (s : DIDState) (sender : Address) (did : Hash) (newCid : String) :
    Except DIDErr DIDState :=
  let doc := s.dids did
  if doc.controller = 0 then .error .NotFound
  else if doc.controller ≠ sender then .error .NotController
  else if doc.status ≠ .Active then .error .AlreadyRevoked
  else .ok
    { s with dids := fun d => if d = did then { doc with cid := newCid } else s.dids d }

/-- `DIDRegistry.revokeDID`: same precondition order as `updateDID`,
then flips the status to `Revoked`. -/
def revokeDID (s : DIDState) (sender : Address) (did : Hash) :
    Except DIDErr DIDState :=
  let doc := s.dids did
  if doc.controller = 0 then .error .NotFound
  else if doc.controller ≠ sender then .error .NotController
  else if doc.status ≠ .Active then .error .AlreadyRevoked
  else .ok
    { s with dids := fun d => if d = did then { doc with status := .Revoked } else s.dids d }

/-- `DIDRegistry.resolveDID`: read-only; fails on an absent record. -/
def resolveDID (s : DIDState) (did : Hash) :
    Except DIDErr (Address × String × DIDStatus) :=
  let doc := s.dids did
  if doc.controller = 0 then .error .NotFound
  else .ok (doc.controller, doc.cid, doc.status)

/-- `DIDRegistry.getDIDsByOwner`: the reverse index; never fails. -/
def getDIDsByOwner (s : DIDState) (owner : Address) : List Hash :=
  s.ownerToDIDs owner

/-- The state `createDID` stores on success (the update half of
`DIDRegistry.createDID`, factored out so it can be named in proofs). -/
def createdState (Hkey : Address → Nat → Hash) (s : DIDState)
    (sender : Address) (cid : String) : DIDState :=
  let did := Hkey sender (s.nonces sender)
  ⟨fun d => if d = did then ⟨sender, cid, .Active⟩ else s.dids d,
   fun a => if a = sender then s.nonces a + 1 else s.nonces a,
   fun a => if a = sender then s.ownerToDIDs a ++ [did] else s.ownerToDIDs a⟩

/-- One externally submitted transaction against `DIDRegistry`. -/
inductive DIDOp where
  | create (sender : Address) (cid : String)
  | update (sender : Address) (did : Hash) (newCid : String)
  | revoke (sender : Address) (did : Hash)

/-- Apply one transaction; a reverted transaction leaves the state
unchanged. -/
def stepDID (Hkey : Address → Nat → Hash) (s : DIDState) : DIDOp → DIDState
  | .create sender cid =>
    match createDID Hkey s sender cid with
    | .ok (s', _) => s'
    | .error _ => s
  | .update sender did newCid =>
    match updateDID s sender did newCid with
    | .ok s' => s'
    | .error _ => s
  | .revoke sender did =>
    match revokeDID s sender did with
    | .ok s' => s'
    | .error _ => s

/-- Run a globally ordered sequence of transactions. -/
def runDID (Hkey : Address → Nat → Hash) (s : DIDState) (ops : List DIDOp) : DIDState :=
  ops.foldl (stepDID Hkey) s

/-! ## Concrete instances used in closed-form corollaries -/

/-- A concrete stand-in for the external pair hash. -/
def Hc : Hash → Hash → Hash := fun a b => 31 * a + b + 1

/-- A role predicate granting `ISSUER_ROLE` to everyone. -/
def rolesAll : Address → Bool := fun _ => true

/-- A registry state with root `10` issued by address `7` and leaf `5`
revoked. -/
def sDemo : VCState :=
  ⟨fun r => if r = 10 then 7 else 0, fun l => l == 5⟩

/-- A concrete stand-in for the external DID-derivation hash. -/
def Hkc : Address → Nat → Hash := fun a n => 1000 * a + n + 1

/-- A DID registry state with an active record `100` and a revoked
record `200`, both controlled by address `4`. -/
def dDemo : DIDState :=
  ⟨fun d => if d = 100 then ⟨4, "cidA", .Active⟩
            else if d = 200 then ⟨4, "cidB", .Revoked⟩
            else emptyDoc,
   fun _ => 1,
   fun a => if a = 4 then [100, 200] else []⟩

/-! ## Helper lemmas -/

theorem hashPair_comm (H : Hash → Hash → Hash) (a b : Hash) :
    hashPair H a b = hashPair H b a := by
  unfold hashPair
  rcases Nat.lt_trichotomy a b with h | h | h
  · rw [if_pos h, if_neg (Nat.lt_asymm h)]
  · subst h; rfl
  · rw [if_neg (Nat.lt_asymm h), if_pos h]

theorem sibIdx_add_two (j : Nat) : sibIdx (j + 2) = sibIdx j + 2 := by
  simp only [sibIdx]
  split_ifs with h1 h2 h2 <;> omega

/-- The node above index `i` is the sorted-pair hash of the node at `i`
and its sibling, or the node at `i` itself when `i` is the unpaired
last node of an odd level. -/
theorem nextLevel_getD (H : Hash → Hash → Hash) :
    ∀ (l : List Hash) (i : Nat), i < l.length →
    (nextLevel H l).getD (i / 2) 0 =
      if sibIdx i < l.length then hashPair H (l.getD i 0) (l.getD (sibIdx i) 0)
      else l.getD i 0
  | [], i, hi => absurd hi (by simp)
  | [a], i, hi => by
    have h0 : i = 0 := Nat.lt_one_iff.mp (by simpa using hi)
    subst h0
    simp [nextLevel, sibIdx]
  | a :: b :: rest, 0, hi => by
    have h1 : (1 : Nat) < rest.length + 2 := by omega
    simp [nextLevel, sibIdx, h1]
  | a :: b :: rest, 1, hi => by
    have h0 : (0 : Nat) < rest.length + 2 := by omega
    simp [nextLevel, sibIdx, h0]
    exact hashPair_comm H a b
  | a :: b :: rest, j + 2, hi => by
    have hj : j < rest.length := by
      simp only [List.length_cons] at hi
      omega
    have ih := nextLevel_getD H rest j hj
    have hdiv : (j + 2) / 2 = j / 2 + 1 := by omega
    rw [hdiv, sibIdx_add_two]
    simp only [nextLevel, List.getD_cons_succ, List.length_cons]
    rw [ih]
    have hcond : (sibIdx j + 2 < rest.length + 2) = (sibIdx j < rest.length) := by
      simp
    by_cases hs : sibIdx j < rest.length
    · rw [if_pos hs, if_pos (by omega : sibIdx j + 2 < rest.length + 1 + 1)]
    · rw [if_neg hs, if_neg (by omega : ¬ sibIdx j + 2 < rest.length + 1 + 1)]

/-- Recomputing the path from the node at index `i` through the sibling
path produced by `proofAtIndex` yields the root. -/
theorem processProof_proofAtIndex (H : Hash → Hash → Hash) (nodes : List Hash) (i : Nat)
    (hi : i < nodes.length) :
    processProof H (proofAtIndex H nodes i) (nodes.getD i 0) = rootOfLeaves H nodes := by
  by_cases h1 : nodes.length ≤ 1
  · rw [proofAtIndex, dif_pos h1, rootOfLeaves, dif_pos h1]
    have h0 : i = 0 := by omega
    subst h0
    rfl
  · rw [proofAtIndex, dif_neg h1, rootOfLeaves, dif_neg h1]
    rw [processProof, List.foldl_append]
    have hkey := nextLevel_getD H nodes i hi
    have hi2 : i / 2 < (nextLevel H nodes).length := by
      rw [nextLevel_length]
      omega
    have ih := processProof_proofAtIndex H (nextLevel H nodes) (i / 2) hi2
    by_cases hs : sibIdx i < nodes.length
    · rw [if_pos hs] at hkey
      rw [if_pos hs]
      simp only [List.foldl_cons, List.foldl_nil]
      rw [← hkey]
      exact ih
    · rw [if_neg hs] at hkey
      rw [if_neg hs]
      simp only [List.foldl_nil]
      rw [← hkey]
      exact ih
termination_by nodes.length
decreasing_by
  rw [nextLevel_length]
  omega

/-- A successful lookup returns an in-range index holding the value. -/
theorem lastIdxOf_eq_some (x : Hash) :
    ∀ (l : List Hash) (j : Nat), lastIdxOf x l = some j →
      j < l.length ∧ l.getD j 0 = x
  | [], j, h => by simp [lastIdxOf] at h
  | a :: rest, j, h => by
    rw [lastIdxOf] at h
    cases hrec : lastIdxOf x rest with
    | some j' =>
      rw [hrec] at h
      obtain ⟨hlt, hval⟩ := lastIdxOf_eq_some x rest j' hrec
      simp only [Option.some.injEq] at h
      subst h
      exact ⟨by simpa using Nat.succ_lt_succ hlt, by simpa using hval⟩
    | none =>
      rw [hrec] at h
      by_cases hax : a = x
      · rw [if_pos hax] at h
        simp only [Option.some.injEq] at h
        subst h
        simpa using hax
      · rw [if_neg hax] at h
        exact absurd h (by simp)

/-- Everything a successful `issueBatchCredentials` implies. -/
theorem issue_ok_shape (isIssuer : Address → Bool) (s : VCState)
    (sender : Address) (merkleRoot : Hash) (s' : VCState) (ev : VCEvent)
    (h : issueBatchCredentials isIssuer s sender merkleRoot = .ok (s', ev)) :
    isIssuer sender = true ∧
    s.merkleRootToIssuer merkleRoot = 0 ∧
    s' = { s with merkleRootToIssuer :=
            fun r => if r = merkleRoot then sender else s.merkleRootToIssuer r } ∧
    ev = .BatchCredentialsIssued merkleRoot sender := by
  unfold issueBatchCredentials at h
  split_ifs at h with h1 h2
  simp only [Except.ok.injEq, Prod.mk.injEq] at h
  refine ⟨?_, ?_, h.1.symm, h.2.symm⟩
  · simpa using h1
  · simpa using h2

/-- Everything a successful `revokeBatchCredential` implies. -/
theorem revoke_ok_shape (s : VCState) (sender : Address) (leaf merkleRoot : Hash)
    (s' : VCState) (ev : VCEvent)
    (h : revokeBatchCredential s sender leaf merkleRoot = .ok (s', ev)) :
    s.merkleRootToIssuer merkleRoot ≠ 0 ∧
    sender = s.merkleRootToIssuer merkleRoot ∧
    s.isBatchCredentialRevoked leaf = false ∧
    s' = { s with isBatchCredentialRevoked :=
            fun l => if l = leaf then true else s.isBatchCredentialRevoked l } ∧
    ev = .BatchCredentialRevoked leaf merkleRoot sender := by
  simp only [revokeBatchCredential] at h
  split_ifs at h with h1 h2 h3
  simp only [Except.ok.injEq, Prod.mk.injEq] at h
  push_neg at h2
  exact ⟨h1, h2, by simpa using h3, h.1.symm, h.2.symm⟩

/-- Revocation of a leaf survives any single transaction. -/
theorem stepVC_revoked_mono (s : VCState) (op : VCOp) (leaf : Hash)
    (h : s.isBatchCredentialRevoked leaf = true) :
    (stepVC s op).isBatchCredentialRevoked leaf = true := by
  cases op with
  | issue isIssuer sender merkleRoot =>
    cases hcall : issueBatchCredentials isIssuer s sender merkleRoot with
    | error e => simpa [stepVC, hcall] using h
    | ok p =>
      obtain ⟨s', ev⟩ := p
      obtain ⟨-, -, hs', -⟩ := issue_ok_shape isIssuer s sender merkleRoot s' ev hcall
      subst hs'
      simpa [stepVC, hcall] using h
  | revoke sender leaf' merkleRoot =>
    cases hcall : revokeBatchCredential s sender leaf' merkleRoot with
    | error e => simpa [stepVC, hcall] using h
    | ok p =>
      obtain ⟨s', ev⟩ := p
      obtain ⟨-, -, -, hs', -⟩ := revoke_ok_shape s sender leaf' merkleRoot s' ev hcall
      subst hs'
      simp only [stepVC, hcall]
      by_cases hl : leaf = leaf'
      · simp [hl]
      · simpa [hl] using h

/-- A nonzero issuer entry for a root survives any single transaction. -/
theorem stepVC_issuer_preserved (s : VCState) (op : VCOp) (merkleRoot : Hash) (i : Address)
    (hmap : s.merkleRootToIssuer merkleRoot = i) (hi : i ≠ 0) :
    (stepVC s op).merkleRootToIssuer merkleRoot = i := by
  cases op with
  | issue isIssuer sender root' =>
    cases hcall : issueBatchCredentials isIssuer s sender root' with
    | error e => simpa [stepVC, hcall] using hmap
    | ok p =>
      obtain ⟨s', ev⟩ := p
      obtain ⟨-, hzero, hs', -⟩ := issue_ok_shape isIssuer s sender root' s' ev hcall
      subst hs'
      simp only [stepVC, hcall]
      by_cases hrr : merkleRoot = root'
      · rw [← hrr] at hzero
        rw [hmap] at hzero
        exact absurd hzero hi
      · simpa [hrr] using hmap
  | revoke sender leaf' root' =>
    cases hcall : revokeBatchCredential s sender leaf' root' with
    | error e => simpa [stepVC, hcall] using hmap
    | ok p =>
      obtain ⟨s', ev⟩ := p
      obtain ⟨-, -, -, hs', -⟩ := revoke_ok_shape s sender leaf' root' s' ev hcall
      subst hs'
      simpa [stepVC, hcall] using hmap

/-- Revocation of a leaf survives any transaction sequence. -/
theorem runVC_revoked_mono (leaf : Hash) :
    ∀ (ops : List VCOp) (s : VCState), s.isBatchCredentialRevoked leaf = true →
      (runVC s ops).isBatchCredentialRevoked leaf = true
  | [], _, h => h
  | op :: ops, s, h => by
    simp only [runVC, List.foldl_cons]
    exact runVC_revoked_mono leaf ops (stepVC s op) (stepVC_revoked_mono s op leaf h)

/-- A nonzero issuer entry survives any transaction sequence. -/
theorem runVC_issuer_preserved (merkleRoot : Hash) (i : Address) (hi : i ≠ 0) :
    ∀ (ops : List VCOp) (s : VCState), s.merkleRootToIssuer merkleRoot = i →
      (runVC s ops).merkleRootToIssuer merkleRoot = i
  | [], _, h => h
  | op :: ops, s, h => by
    simp only [runVC, List.foldl_cons]
    exact runVC_issuer_preserved merkleRoot i hi ops (stepVC s op)
      (stepVC_issuer_preserved s op merkleRoot i h hi)

/-- A revoked leaf makes `verifyCredential` answer `(false, 0)`. -/
theorem verifyCredential_of_revoked (H : Hash → Hash → Hash) (s : VCState)
    (leaf merkleRoot : Hash) (proof : List Hash)
    (h : s.isBatchCredentialRevoked leaf = true) :
    verifyCredential H s leaf merkleRoot proof = (false, 0) := by
  unfold verifyCredential
  rw [if_pos h]

/-- Everything a successful `createDID` implies. -/
theorem create_ok_shape (Hkey : Address → Nat → Hash) (s : DIDState)
    (sender : Address) (cid : String) (s' : DIDState) (did : Hash)
    (h : createDID Hkey s sender cid = .ok (s', did)) :
    did = Hkey sender (s.nonces sender) ∧
    (s.dids did).controller = 0 ∧
    s' = ⟨fun d => if d = did then ⟨sender, cid, .Active⟩ else s.dids d,
          fun a => if a = sender then s.nonces a + 1 else s.nonces a,
          fun a => if a = sender then s.ownerToDIDs a ++ [did] else s.ownerToDIDs a⟩ := by
  simp only [createDID] at h
  split_ifs at h with h1
  simp only [Except.ok.injEq, Prod.mk.injEq] at h
  obtain ⟨hs', hdid⟩ := h
  subst hdid
  exact ⟨rfl, by simpa using h1, hs'.symm⟩

/-- Everything a successful `updateDID` implies. -/
theorem update_ok_shape (s : DIDState) (sender : Address) (did : Hash)
    (newCid : String) (s' : DIDState)
    (h : updateDID s sender did newCid = .ok s') :
    (s.dids did).controller ≠ 0 ∧
    (s.dids did).controller = sender ∧
    (s.dids did).status = .Active ∧
    s' = { s with dids :=
            fun d => if d = did then { s.dids did with cid := newCid } else s.dids d } := by
  simp only [updateDID] at h
  split_ifs at h with h1 h2 h3
  simp only [Except.ok.injEq] at h
  push_neg at h2 h3
  exact ⟨h1, h2, h3, h.symm⟩

/-- Everything a successful `revokeDID` implies. -/
theorem revokeDID_ok_shape (s : DIDState) (sender : Address) (did : Hash) (s' : DIDState)
    (h : revokeDID s sender did = .ok s') :
    (s.dids did).controller ≠ 0 ∧
    (s.dids did).controller = sender ∧
    (s.dids did).status = .Active ∧
    s' = { s with dids :=
            fun d => if d = did then { s.dids did with status := .Revoked } else s.dids d } := by
  simp only [revokeDID] at h
  split_ifs at h with h1 h2 h3
  simp only [Except.ok.injEq] at h
  push_neg at h2 h3
  exact ⟨h1, h2, h3, h.symm⟩

/-- A revoked record (nonzero controller, status `Revoked`) is frozen by
any single transaction. -/
theorem stepDID_frozen (Hkey : Address → Nat → Hash) (s : DIDState) (op : DIDOp) (did : Hash)
    (hc : (s.dids did).controller ≠ 0) (hst : (s.dids did).status = .Revoked) :
    (stepDID Hkey s op).dids did = s.dids did := by
  cases op with
  | create sender cid =>
    cases hcall : createDID Hkey s sender cid with
    | error e => simp [stepDID, hcall]
    | ok p =>
      obtain ⟨s', ndid⟩ := p
      obtain ⟨-, hzero, hs'⟩ := create_ok_shape Hkey s sender cid s' ndid hcall
      subst hs'
      simp only [stepDID, hcall]
      by_cases hd : did = ndid
      · exact absurd (hd ▸ hzero) hc
      · simp [hd]
  | update sender did' newCid =>
    cases hcall : updateDID s sender did' newCid with
    | error e => simp [stepDID, hcall]
    | ok s' =>
      obtain ⟨-, -, hact, hs'⟩ := update_ok_shape s sender did' newCid s' hcall
      subst hs'
      simp only [stepDID, hcall]
      by_cases hd : did = did'
      · rw [hd] at hst
        rw [hact] at hst
        exact absurd hst (by simp)
      · simp [hd]
  | revoke sender did' =>
    cases hcall : revokeDID s sender did' with
    | error e => simp [stepDID, hcall]
    | ok s' =>
      obtain ⟨-, -, hact, hs'⟩ := revokeDID_ok_shape s sender did' s' hcall
      subst hs'
      simp only [stepDID, hcall]
      by_cases hd : did = did'
      · rw [hd] at hst
        rw [hact] at hst
        exact absurd hst (by simp)
      · simp [hd]

/-- A revoked record is frozen by any transaction sequence. -/
theorem runDID_frozen (Hkey : Address → Nat → Hash) (did : Hash) :
    ∀ (ops : List DIDOp) (s : DIDState),
      (s.dids did).controller ≠ 0 → (s.dids did).status = .Revoked →
      (runDID Hkey s ops).dids did = s.dids did
  | [], _, _, _ => rfl
  | op :: ops, s, hc, hst => by
    have hstep := stepDID_frozen Hkey s op did hc hst
    have hrec := runDID_frozen Hkey did ops (stepDID Hkey s op)
      (by rw [hstep]; exact hc) (by rw [hstep]; exact hst)
    calc (runDID Hkey s (op :: ops)).dids did
        = (runDID Hkey (stepDID Hkey s op) ops).dids did := rfl
      _ = (stepDID Hkey s op).dids did := hrec
      _ = s.dids did := hstep

/-- Looking up a present value succeeds. -/
theorem lastIdxOf_isSome (x : Hash) :
    ∀ l : List Hash, x ∈ l → (lastIdxOf x l).isSome = true
  | [], hx => absurd hx (by simp)
  | a :: rest, hx => by
    rw [lastIdxOf]
    cases hrec : lastIdxOf x rest with
    | some j' => simp
    | none =>
      rcases List.mem_cons.mp hx with hax | hmem
      · simp [hax.symm]
      · have := lastIdxOf_isSome x rest hmem
        rw [hrec] at this
        exact absurd this (by simp)

/-- A `createDID` whose derived identifier is unused succeeds and
stores exactly `createdState`. -/
theorem createDID_ok (Hkey : Address → Nat → Hash) (s : DIDState)
    (sender : Address) (cid : String)
    (h0 : (s.dids (Hkey sender (s.nonces sender))).controller = 0) :
    createDID Hkey s sender cid =
      .ok (createdState Hkey s sender cid, Hkey sender (s.nonces sender)) := by
  simp only [createDID, createdState]
  rw [if_neg (by simp [h0])]

/-! ## Claim theorems -/

/-- C1: `verifyCredential` is a pure total query with a three-stage
short-circuit in this order: a revoked leaf answers `(false, none)`; an
unmapped root answers `(false, none)`; otherwise the verdict is the
Merkle-proof check, `(true, issuer)` on success and `(false, none)` on
failure. (`none` is `address(0)`, modelled as `0`.) -/
theorem C1_verifyCredential_stages (H : Hash → Hash → Hash) (s : VCState)
    (leaf merkleRoot : Hash) (proof : List Hash) :
    (s.isBatchCredentialRevoked leaf = true →
      verifyCredential H s leaf merkleRoot proof = (false, 0)) ∧
    (s.isBatchCredentialRevoked leaf = false → s.merkleRootToIssuer merkleRoot = 0 →
      verifyCredential H s leaf merkleRoot proof = (false, 0)) ∧
    (s.isBatchCredentialRevoked leaf = false → s.merkleRootToIssuer merkleRoot ≠ 0 →
      verifyCredential H s leaf merkleRoot proof =
        if verifyProof H proof merkleRoot leaf
        then (true, s.merkleRootToIssuer merkleRoot) else (false, 0)) := by
  simp only [verifyCredential]
  refine ⟨fun h => by rw [if_pos h],
          fun h hz => by rw [if_neg (by simp [h]), if_pos hz],
          fun h hz => by rw [if_neg (by simp [h]), if_neg hz]⟩

/-- C2: for a nonempty leaf sequence, every present leaf's generated
inclusion proof verifies against the built tree's root. -/
theorem C2_build_prove_verify (H : Hash → Hash → Hash) (leaves : List Hash) (leaf : Hash)
    (_hne : leaves ≠ []) (hmem : leaf ∈ leaves) :
    verifyProof H (getProofFor H leaves leaf) (rootOfLeaves H leaves) leaf = true := by
  have hsome := lastIdxOf_isSome leaf leaves hmem
  obtain ⟨i, hidx⟩ := Option.isSome_iff_exists.mp hsome
  obtain ⟨hlt, hval⟩ := lastIdxOf_eq_some leaf leaves i hidx
  unfold getProofFor
  rw [hidx]
  unfold verifyProof
  rw [← hval, processProof_proofAtIndex H leaves i hlt]
  simp

/-- C3: once a leaf is revoked, after any sequence of further
transactions it is still revoked and `verifyCredential` answers
`(false, none)` for it under every root and proof (revocation is keyed
by leaf alone and is never undone). -/
theorem C3_revocation_permanent (H : Hash → Hash → Hash) (s : VCState) (leaf : Hash)
    (hrev : s.isBatchCredentialRevoked leaf = true) :
    ∀ (ops : List VCOp) (merkleRoot : Hash) (proof : List Hash),
      (runVC s ops).isBatchCredentialRevoked leaf = true ∧
      verifyCredential H (runVC s ops) leaf merkleRoot proof = (false, 0) := by
  intro ops merkleRoot proof
  have h := runVC_revoked_mono leaf ops s hrev
  exact ⟨h, verifyCredential_of_revoked H (runVC s ops) leaf merkleRoot proof h⟩

/-- C4: issuing a batch with an already-mapped root fails with
`DuplicateRoot`, and the original root-to-issuer entry persists through
every later transaction sequence. -/
theorem C4_duplicate_root (isIssuer : Address → Bool) (s : VCState)
    (sender : Address) (merkleRoot : Hash) (i : Address)
    (hrole : isIssuer sender = true)
    (hmap : s.merkleRootToIssuer merkleRoot = i) (hi : i ≠ 0) :
    issueBatchCredentials isIssuer s sender merkleRoot = .error .DuplicateRoot ∧
    ∀ ops : List VCOp, (runVC s ops).merkleRootToIssuer merkleRoot = i := by
  constructor
  · unfold issueBatchCredentials
    rw [if_neg (by simp [hrole]), if_pos (by rw [hmap]; exact hi)]
  · intro ops
    exact runVC_issuer_preserved merkleRoot i hi ops s hmap

/-- C5: `revokeBatchCredential` checks its preconditions in order
(`UnknownRoot`, then `NotAuthorized`, then `AlreadyRevoked`), on success
marks the leaf revoked and emits `BatchCredentialRevoked(leaf, root,
caller)`, and every failing call leaves the state unchanged. -/
theorem C5_revoke_cases (s : VCState) (sender : Address) (leaf merkleRoot : Hash) :
    (s.merkleRootToIssuer merkleRoot = 0 →
      revokeBatchCredential s sender leaf merkleRoot = .error .UnknownRoot) ∧
    (s.merkleRootToIssuer merkleRoot ≠ 0 → sender ≠ s.merkleRootToIssuer merkleRoot →
      revokeBatchCredential s sender leaf merkleRoot = .error .NotAuthorized) ∧
    (s.merkleRootToIssuer merkleRoot ≠ 0 → sender = s.merkleRootToIssuer merkleRoot →
      s.isBatchCredentialRevoked leaf = true →
      revokeBatchCredential s sender leaf merkleRoot = .error .AlreadyRevoked) ∧
    (s.merkleRootToIssuer merkleRoot ≠ 0 → sender = s.merkleRootToIssuer merkleRoot →
      s.isBatchCredentialRevoked leaf = false →
      revokeBatchCredential s sender leaf merkleRoot =
        .ok ({ s with isBatchCredentialRevoked :=
                fun l => if l = leaf then true else s.isBatchCredentialRevoked l },
             .BatchCredentialRevoked leaf merkleRoot sender)) ∧
    (∀ e, revokeBatchCredential s sender leaf merkleRoot = .error e →
      stepVC s (.revoke sender leaf merkleRoot) = s) := by
  refine ⟨fun h0 => ?_, fun hnz hneq => ?_, fun hnz heq hrev => ?_,
          fun hnz heq hnrev => ?_, fun e herr => ?_⟩
  · simp only [revokeBatchCredential]
    rw [if_pos h0]
  · simp only [revokeBatchCredential]
    rw [if_neg hnz, if_pos hneq]
  · simp only [revokeBatchCredential]
    rw [if_neg hnz, if_neg (by simp [heq]), if_pos hrev]
  · simp only [revokeBatchCredential]
    rw [if_neg hnz, if_neg (by simp [heq]), if_neg (by simp [hnrev])]
  · simp [stepVC, herr]

/-- C6: `verifyProof` is pure and total — the verdict is exactly the
comparison of the sorted-pair fold over the proof with the root, so any
mismatch (including with an empty proof) yields `false`; an empty proof
verifies only a root equal to the leaf. -/
theorem C6_verifyProof_total (H : Hash → Hash → Hash) (proof : List Hash) (root leaf : Hash) :
    (verifyProof H proof root leaf = true ↔ List.foldl (hashPair H) leaf proof = root) ∧
    (List.foldl (hashPair H) leaf proof ≠ root → verifyProof H proof root leaf = false) ∧
    (verifyProof H [] root leaf = true ↔ leaf = root) := by
  refine ⟨by simp [verifyProof, processProof],
          fun hne => by simp [verifyProof, processProof, hne],
          by simp [verifyProof, processProof]⟩

/-- C7: proof generation fails with `NotFound` when the leaf is absent
from the leaf set (compared by value) or occurs more than once. -/
theorem C7_proofFor_notFound (H : Hash → Hash → Hash) (leaves : List Hash) (leaf : Hash)
    (h : leaf ∉ leaves ∨ 1 < leaves.count leaf) :
    proofFor H leaves leaf = .error () := by
  unfold proofFor
  cases h with
  | inl hnot =>
    rw [if_pos (by rw [List.count_eq_zero.mpr hnot]; omega)]
  | inr hdup =>
    rw [if_pos (by omega)]

/-- C10: `revokeBatchCredential` never checks membership of the leaf in
the batch under the root: whenever the root has an issuer and the leaf
(any 32-byte value) is not yet revoked, the issuer's revocation
succeeds, after which `verifyCredential` answers `(false, none)` for
that leaf under every root and proof. -/
theorem C10_revoke_without_membership (H : Hash → Hash → Hash) (s : VCState)
    (leaf merkleRoot : Hash)
    (hmap : s.merkleRootToIssuer merkleRoot ≠ 0)
    (hnrev : s.isBatchCredentialRevoked leaf = false) :
    ∃ s', revokeBatchCredential s (s.merkleRootToIssuer merkleRoot) leaf merkleRoot =
        .ok (s', .BatchCredentialRevoked leaf merkleRoot (s.merkleRootToIssuer merkleRoot)) ∧
      ∀ (root' : Hash) (proof : List Hash),
        verifyCredential H s' leaf root' proof = (false, 0) := by
  refine ⟨{ s with isBatchCredentialRevoked :=
              fun l => if l = leaf then true else s.isBatchCredentialRevoked l },
          ?_, ?_⟩
  · simp only [revokeBatchCredential]
    rw [if_neg hmap, if_neg (by simp), if_neg (by simp [hnrev])]
  · intro root' proof
    exact verifyCredential_of_revoked H _ leaf root' proof (by simp)

/-- C8: `createDID` derives the identifier from the caller and the
caller's current nonce, fails with `CollisionDetected` when that
identifier already exists, and on success bumps the nonce and appends
to the reverse index; two successful creations by the same (nonzero)
controller therefore yield distinct identifiers, both listed by
`getDIDsByOwner`. -/
theorem C8_create_distinct (Hkey : Address → Nat → Hash) (s : DIDState)
    (sender : Address) (cid1 cid2 : String) (hs : sender ≠ 0) :
    ((s.dids (Hkey sender (s.nonces sender))).controller ≠ 0 →
      createDID Hkey s sender cid1 = .error .CollisionDetected) ∧
    ((s.dids (Hkey sender (s.nonces sender))).controller = 0 →
      ∃ s1, createDID Hkey s sender cid1 = .ok (s1, Hkey sender (s.nonces sender)) ∧
        s1.nonces sender = s.nonces sender + 1 ∧
        s1.ownerToDIDs sender = s.ownerToDIDs sender ++ [Hkey sender (s.nonces sender)] ∧
        ((s1.dids (Hkey sender (s1.nonces sender))).controller = 0 →
          ∃ s2, createDID Hkey s1 sender cid2 = .ok (s2, Hkey sender (s.nonces sender + 1)) ∧
            Hkey sender (s.nonces sender) ≠ Hkey sender (s.nonces sender + 1) ∧
            Hkey sender (s.nonces sender) ∈ getDIDsByOwner s2 sender ∧
            Hkey sender (s.nonces sender + 1) ∈ getDIDsByOwner s2 sender)) := by
  constructor
  · intro hcol
    simp only [createDID]
    rw [if_pos hcol]
  · intro h0
    refine ⟨createdState Hkey s sender cid1, createDID_ok Hkey s sender cid1 h0,
            by simp [createdState], by simp [createdState], ?_⟩
    intro h1
    have hn1 : (createdState Hkey s sender cid1).nonces sender = s.nonces sender + 1 := by
      simp [createdState]
    have h2eq := createDID_ok Hkey (createdState Hkey s sender cid1) sender cid2 h1
    rw [hn1] at h2eq
    refine ⟨createdState Hkey (createdState Hkey s sender cid1) sender cid2, h2eq, ?_, ?_, ?_⟩
    · intro heq
      rw [hn1] at h1
      rw [← heq] at h1
      simp [createdState] at h1
      exact hs h1
    · simp [createdState, getDIDsByOwner]
    · simp [createdState, getDIDsByOwner, hn1]

/-- C9: only the controller can mutate a record (`NotController`
otherwise, for update and revoke alike); a revoked record rejects both
update and revoke with `AlreadyRevoked`; a successful revoke makes
`resolveDID` report status `Revoked` with the last-set cid; and a
revoked record never changes again under any transaction sequence. -/
theorem C9_controller_and_status (Hkey : Address → Nat → Hash) (s : DIDState)
    (sender : Address) (did : Hash) (newCid : String) :
    ((s.dids did).controller ≠ 0 → sender ≠ (s.dids did).controller →
      updateDID s sender did newCid = .error .NotController ∧
      revokeDID s sender did = .error .NotController) ∧
    ((s.dids did).controller ≠ 0 → (s.dids did).status = .Revoked →
      updateDID s (s.dids did).controller did newCid = .error .AlreadyRevoked ∧
      revokeDID s (s.dids did).controller did = .error .AlreadyRevoked) ∧
    (∀ s', revokeDID s sender did = .ok s' →
      resolveDID s' did = .ok ((s.dids did).controller, (s.dids did).cid, .Revoked)) ∧
    ((s.dids did).controller ≠ 0 → (s.dids did).status = .Revoked →
      ∀ ops, (runDID Hkey s ops).dids did = s.dids did) := by
  refine ⟨fun hc hne => ?_, fun hc hrev => ?_, fun s' hok => ?_, fun hc hrev => ?_⟩
  · constructor
    · simp only [updateDID]
      rw [if_neg hc, if_pos (fun h => hne h.symm)]
    · simp only [revokeDID]
      rw [if_neg hc, if_pos (fun h => hne h.symm)]
  · constructor
    · simp only [updateDID]
      rw [if_neg hc, if_neg (by simp), if_pos (by rw [hrev]; simp)]
    · simp only [revokeDID]
      rw [if_neg hc, if_neg (by simp), if_pos (by rw [hrev]; simp)]
  · obtain ⟨hc, -, -, hs'⟩ := revokeDID_ok_shape s sender did s' hok
    subst hs'
    simp only [resolveDID]
    rw [if_neg (by simpa using hc)]
    simp
  · exact fun ops => runDID_frozen Hkey did ops s hc hrev

/-! ## Closed-form corollaries (witnesses) -/

/-- C1 witness: the three stages evaluated on a concrete state. -/
theorem C1_witness :
    verifyCredential Hc sDemo 5 10 [] = (false, 0) ∧
    verifyCredential Hc sDemo 6 11 [] = (false, 0) ∧
    verifyCredential Hc sDemo 6 10 [] =
      (if verifyProof Hc [] 10 6 then (true, sDemo.merkleRootToIssuer 10) else (false, 0)) :=
  ⟨(C1_verifyCredential_stages Hc sDemo 5 10 []).1 (by decide),
   (C1_verifyCredential_stages Hc sDemo 6 11 []).2.1 (by decide) (by decide),
   (C1_verifyCredential_stages Hc sDemo 6 10 []).2.2 (by decide) (by decide)⟩

/-- C2 witness: the roundtrip on the concrete batch `[3, 1, 2]`. -/
theorem C2_witness :
    (([3, 1, 2] : List Hash) ≠ [] ∧ (2 : Hash) ∈ ([3, 1, 2] : List Hash)) ∧
    verifyProof Hc (getProofFor Hc [3, 1, 2] 2) (rootOfLeaves Hc [3, 1, 2]) 2 = true :=
  ⟨⟨by decide, by decide⟩, C2_build_prove_verify Hc [3, 1, 2] 2 (by decide) (by decide)⟩

/-- C3 witness: leaf `5`, revoked in `sDemo`, stays revoked across a
concrete issue-then-revoke transaction sequence. -/
theorem C3_witness :
    sDemo.isBatchCredentialRevoked 5 = true ∧
    ((runVC sDemo [VCOp.issue rolesAll 7 11, VCOp.revoke 7 6 11]).isBatchCredentialRevoked 5
        = true ∧
     verifyCredential Hc (runVC sDemo [VCOp.issue rolesAll 7 11, VCOp.revoke 7 6 11]) 5 10 []
        = (false, 0)) :=
  ⟨by decide,
   C3_revocation_permanent Hc sDemo 5 (by decide) [VCOp.issue rolesAll 7 11, VCOp.revoke 7 6 11] 10 []⟩

/-- C4 witness: republishing root `10` fails and its issuer `7`
survives a concrete transaction sequence. -/
theorem C4_witness :
    rolesAll 7 = true ∧ sDemo.merkleRootToIssuer 10 = 7 ∧ (7 : Address) ≠ 0 ∧
    issueBatchCredentials rolesAll sDemo 7 10 = .error .DuplicateRoot ∧
    (runVC sDemo [VCOp.issue rolesAll 8 10]).merkleRootToIssuer 10 = 7 :=
  ⟨by decide, by decide, by decide,
   (C4_duplicate_root rolesAll sDemo 7 10 7 (by decide) (by decide) (by decide)).1,
   (C4_duplicate_root rolesAll sDemo 7 10 7 (by decide) (by decide) (by decide)).2
     [VCOp.issue rolesAll 8 10]⟩

/-- C5 witness: each precondition failure, the success case, and the
state-unchanged property on a concrete state. -/
theorem C5_witness :
    revokeBatchCredential sDemo 7 5 11 = .error .UnknownRoot ∧
    revokeBatchCredential sDemo 8 5 10 = .error .NotAuthorized ∧
    revokeBatchCredential sDemo 7 5 10 = .error .AlreadyRevoked ∧
    revokeBatchCredential sDemo 7 6 10 =
      .ok ({ sDemo with isBatchCredentialRevoked :=
              fun l => if l = 6 then true else sDemo.isBatchCredentialRevoked l },
           .BatchCredentialRevoked 6 10 7) ∧
    stepVC sDemo (.revoke 8 5 10) = sDemo :=
  ⟨(C5_revoke_cases sDemo 7 5 11).1 (by decide),
   (C5_revoke_cases sDemo 8 5 10).2.1 (by decide) (by decide),
   (C5_revoke_cases sDemo 7 5 10).2.2.1 (by decide) (by decide) (by decide),
   (C5_revoke_cases sDemo 7 6 10).2.2.2.1 (by decide) (by decide) (by decide),
   (C5_revoke_cases sDemo 8 5 10).2.2.2.2 .NotAuthorized
     ((C5_revoke_cases sDemo 8 5 10).2.1 (by decide) (by decide))⟩

/-- C6 witness: a mismatching one-element proof verifies false; the
empty-proof case on concrete values. -/
theorem C6_witness :
    verifyProof Hc [4] 10 3 = false ∧
    (verifyProof Hc [] 10 3 = true ↔ (3 : Hash) = 10) :=
  ⟨(C6_verifyProof_total Hc [4] 10 3).2.1 (by decide),
   (C6_verifyProof_total Hc [4] 10 3).2.2⟩

/-- C7 witness: proof generation for a leaf absent from `[1, 3]`. -/
theorem C7_witness :
    ((2 : Hash) ∉ ([1, 3] : List Hash) ∨ 1 < ([1, 3] : List Hash).count 2) ∧
    proofFor Hc [1, 3] 2 = .error () :=
  ⟨Or.inl (by decide), C7_proofFor_notFound Hc [1, 3] 2 (Or.inl (by decide))⟩

/-- C8 witness: two creations by controller `4` on a fresh registry. -/
theorem C8_witness :
    (4 : Address) ≠ 0 ∧
    (((DIDState.init.dids (Hkc 4 (DIDState.init.nonces 4))).controller ≠ 0 →
        createDID Hkc DIDState.init 4 "cid1" = .error .CollisionDetected) ∧
     ((DIDState.init.dids (Hkc 4 (DIDState.init.nonces 4))).controller = 0 →
        ∃ s1, createDID Hkc DIDState.init 4 "cid1"
              = .ok (s1, Hkc 4 (DIDState.init.nonces 4)) ∧
          s1.nonces 4 = DIDState.init.nonces 4 + 1 ∧
          s1.ownerToDIDs 4 = DIDState.init.ownerToDIDs 4 ++ [Hkc 4 (DIDState.init.nonces 4)] ∧
          ((s1.dids (Hkc 4 (s1.nonces 4))).controller = 0 →
            ∃ s2, createDID Hkc s1 4 "cid2"
                  = .ok (s2, Hkc 4 (DIDState.init.nonces 4 + 1)) ∧
              Hkc 4 (DIDState.init.nonces 4) ≠ Hkc 4 (DIDState.init.nonces 4 + 1) ∧
              Hkc 4 (DIDState.init.nonces 4) ∈ getDIDsByOwner s2 4 ∧
              Hkc 4 (DIDState.init.nonces 4 + 1) ∈ getDIDsByOwner s2 4))) :=
  ⟨by decide, C8_create_distinct Hkc DIDState.init 4 "cid1" "cid2" (by decide)⟩

/-- C9 witness: non-controller mutation rejected, a revoked record
rejects mutation, resolve-after-revoke, and a frozen revoked record on
the concrete state `dDemo`. -/
theorem C9_witness :
    (updateDID dDemo 9 100 "new" = .error .NotController ∧
     revokeDID dDemo 9 100 = .error .NotController) ∧
    (updateDID dDemo (dDemo.dids 200).controller 200 "new" = .error .AlreadyRevoked ∧
     revokeDID dDemo (dDemo.dids 200).controller 200 = .error .AlreadyRevoked) ∧
    resolveDID
        { dDemo with dids :=
            fun d => if d = 100 then ⟨4, "cidA", DIDStatus.Revoked⟩ else dDemo.dids d } 100
      = .ok ((dDemo.dids 100).controller, (dDemo.dids 100).cid, .Revoked) ∧
    (runDID Hkc dDemo [DIDOp.update 4 200 "x", DIDOp.revoke 4 200, DIDOp.create 4 "y"]).dids 200
      = dDemo.dids 200 :=
  ⟨(C9_controller_and_status Hkc dDemo 9 100 "new").1 (by decide) (by decide),
   (C9_controller_and_status Hkc dDemo 9 200 "new").2.1 (by decide) (by decide),
   (C9_controller_and_status Hkc dDemo 4 100 "new").2.2.1
     { dDemo with dids :=
         fun d => if d = 100 then ⟨4, "cidA", DIDStatus.Revoked⟩ else dDemo.dids d } rfl,
   (C9_controller_and_status Hkc dDemo 9 200 "new").2.2.2 (by decide) (by decide)
     [DIDOp.update 4 200 "x", DIDOp.revoke 4 200, DIDOp.create 4 "y"]⟩

/-- C10 witness: issuer `7` revokes leaf `6` (never committed under
root `10`) and the leaf then fails verification under every root. -/
theorem C10_witness :
    sDemo.merkleRootToIssuer 10 ≠ 0 ∧ sDemo.isBatchCredentialRevoked 6 = false ∧
    (∃ s', revokeBatchCredential sDemo (sDemo.merkleRootToIssuer 10) 6 10 =
        .ok (s', .BatchCredentialRevoked 6 10 (sDemo.merkleRootToIssuer 10)) ∧
      ∀ (root' : Hash) (proof : List Hash),
        verifyCredential Hc s' 6 root' proof = (false, 0)) :=
  ⟨by decide, by decide, C10_revoke_without_membership Hc sDemo 6 10 (by decide) (by decide)⟩

end VeriChain
